import Mathlib

/-!
Verification of the key-version resource handler
(`oci/kms_key_version_resource.go`) of the terraform-provider-oci
repository: the composite-identifier codec, the decode gates on the
remote operations, the deletion guard, import parsing, the state
projection (`SetData`) and the lifecycle pending/target tables.

Go strings are byte sequences; they are modelled as `List Nat` with every
byte below 256.  The Go standard-library functions the handler calls
(`net/url.PathEscape` / `PathUnescape`, `strings.Split`,
`strconv.ParseBool`, and the two regular expressions, whose subjects here
are byte strings) are embedded below following their documented
semantics; `time.Parse` is kept as an opaque fallible parser parameter.
-/

namespace Oci

/-- A Go string: a list of byte values. -/
abbrev GoStr := List Nat

/-- Byte list of an ASCII Lean string literal. -/
def bytes (s : String) : GoStr := s.data.map Char.toNat

/-! ### Model of Go `net/url` path-segment escaping -/

/-- Upper-case hexadecimal digit byte for a nibble (Go `upperhex[v]`). -/
def upperhexDigit (n : Nat) : Nat := if n < 10 then 48 + n else 55 + n

/-- Model of Go `net/url.shouldEscape` in mode `encodePathSegment`:
alphanumerics, the marks `-` `_` `.` `~`, and the reserved characters
`$` `&` `+` `:` `=` `@` stay literal; everything else (in particular
`/` `;` `,` `?` `%` and control bytes) is escaped. -/
def shouldEscape (c : Nat) : Bool :=
  if (97 ≤ c ∧ c ≤ 122) ∨ (65 ≤ c ∧ c ≤ 90) ∨ (48 ≤ c ∧ c ≤ 57) then false
  else if c = 45 ∨ c = 95 ∨ c = 46 ∨ c = 126 then false
  else if c = 36 ∨ c = 38 ∨ c = 43 ∨ c = 58 ∨ c = 61 ∨ c = 64 then false
  else true

/-- Model of Go `net/url.PathEscape`: each byte that `shouldEscape`
selects becomes `%` followed by two upper-case hex digits. -/
def pathEscape : GoStr → GoStr
  | [] => []
  | c :: rest =>
    (if shouldEscape c then [37, upperhexDigit (c / 16), upperhexDigit (c % 16)] else [c])
      ++ pathEscape rest

/-- Hexadecimal digit test (Go `net/url.ishex`). -/
def ishex (c : Nat) : Bool :=
  (48 ≤ c ∧ c ≤ 57) ∨ (97 ≤ c ∧ c ≤ 102) ∨ (65 ≤ c ∧ c ≤ 70)

/-- Hexadecimal digit value (Go `net/url.unhex`). -/
def unhex (c : Nat) : Nat :=
  if 48 ≤ c ∧ c ≤ 57 then c - 48
  else if 97 ≤ c ∧ c ≤ 102 then c - 87
  else c - 55

/-- Model of Go `net/url.PathUnescape`: fails exactly when a `%` is not
followed by two hex digits; otherwise replaces each `%XY` by its byte.
`+` and every other byte pass through unchanged in path mode. -/
def pathUnescape : GoStr → Option GoStr
  | [] => some []
  | c :: rest =>
    if c = 37 then
      match rest with
      | a :: b :: rest2 =>
        if ishex a ∧ ishex b then
          (pathUnescape rest2).map fun t => (16 * unhex a + unhex b) :: t
        else none
      | _ => none
    else (pathUnescape rest).map fun t => c :: t

/-! ### Model of Go `strings.Split` on a single-byte separator -/

/-- Model of Go `strings.Split(s, sep)` for a one-byte separator: the
subslices between consecutive separators; the empty string yields one
empty part. -/
def goSplit (sep : Nat) : GoStr → List GoStr
  | [] => [[]]
  | c :: rest =>
    if c = sep then [] :: goSplit sep rest
    else
      match goSplit sep rest with
      | [] => [[c]]
      | p :: ps => (c :: p) :: ps

/-! ### The composite-identifier codec -/

/-- The literal `keys/`. -/
def keysSlashLit : GoStr := bytes (r"keys/")

/-- The literal `/keyVersions/`. -/
def kvSlashLit : GoStr := bytes (r"/keyVersions/")

/-- `getKeyVersionCompositeId` from the source: percent-escape both
segments and join as `keys/{keyId}/keyVersions/{keyVersionId}`. -/
def getKeyVersionCompositeId (keyId keyVersionId : GoStr) : GoStr :=
  keysSlashLit ++ pathEscape keyId ++ kvSlashLit ++ pathEscape keyVersionId

/-- Matcher for the regular expression `.*/keyVersions/.*` anchored at
the start of its argument: some split `A ++ "/keyVersions/" ++ rest`
exists with `A` free of newlines (`.` does not match a newline). -/
def matchMid : GoStr → Bool
  | [] => false
  | c :: rest => kvSlashLit.isPrefixOf (c :: rest) || (c ≠ 10 && matchMid rest)

/-- Matcher for `keys/.*/keyVersions/.*` anchored at the start. -/
def matchAt (s : GoStr) : Bool :=
  keysSlashLit.isPrefixOf s && matchMid (s.drop 5)

/-- Model of Go `regexp.MatchString("keys/.*/keyVersions/.*", s)`: the
unanchored search succeeds when the anchored pattern matches at some
position. -/
def reMatchKeys : GoStr → Bool
  | [] => false
  | c :: rest => matchAt (c :: rest) || reMatchKeys rest

/-- `parseKeyVersionCompositeId` from the source: split on `/`, require
a (substring) match of `keys/.*/keyVersions/.*` and exactly four parts,
then path-unescape parts 1 and 3, discarding unescape errors (a failed
unescape leaves the Go zero value, the empty string). -/
def parseKeyVersionCompositeId (compositeId : GoStr) : Option (GoStr × GoStr) :=
  match goSplit 47 compositeId with
  | [_p0, p1, _p2, p3] =>
    if reMatchKeys compositeId then
      some ((pathUnescape p1).getD [], (pathUnescape p3).getD [])
    else none
  | _ => none

/-! ### Import parsing (`readKmsKeyVersion`, import use case) -/

/-- The literal `managementEndpoint/`. -/
def mgmtSlashLit : GoStr := bytes (r"managementEndpoint/")

/-- The literal `/keys/`. -/
def slashKeysSlashLit : GoStr := bytes (r"/keys/")

/-- Greedy split of a string as `A ++ pat ++ C` with `A` longest, for a
non-empty literal `pat`: the capture semantics of a greedy `(.*)` before
`pat` in an anchored tail `(.*)pat(.*)$` on a newline-free subject. -/
def lastSplitOn (pat : GoStr) : GoStr → Option (GoStr × GoStr)
  | [] => none
  | c :: rest =>
    match lastSplitOn pat rest with
    | some (A, C) => some (c :: A, C)
    | none =>
      if pat.isPrefixOf (c :: rest) then some ([], (c :: rest).drop pat.length)
      else none

/-- Greedy decomposition of a string as
`A ++ "/keys/" ++ B ++ "/keyVersions/" ++ C` with `A` longest, then `B`
longest: the capture semantics of `(.*)/keys/(.*)/keyVersions/(.*)$` on
a newline-free subject. -/
def matchImportTail : GoStr → Option (GoStr × GoStr × GoStr)
  | [] => none
  | c :: rest =>
    match matchImportTail rest with
    | some (A, B, C) => some (c :: A, B, C)
    | none =>
      if slashKeysSlashLit.isPrefixOf (c :: rest) then
        match lastSplitOn kvSlashLit ((c :: rest).drop 6) with
        | some (B, C) => some ([], B, C)
        | none => none
      else none

/-- Model of Go `regexp.FindStringSubmatch` for the anchored expression
`^managementEndpoint/(.*)/keys/(.*)/keyVersions/(.*)$`: `none` when the
expression does not match (in particular whenever the subject contains a
newline, which neither the literals nor `.` can consume), otherwise the
three greedy captures. -/
def findImportTokens (s : GoStr) : Option (GoStr × GoStr × GoStr) :=
  if 10 ∈ s then none
  else if mgmtSlashLit.isPrefixOf s then matchImportTail (s.drop 19)
  else none

/-- The local fields the import branch of `readKmsKeyVersion` sets,
together with the synthesized identifier passed to `d.SetId`. -/
structure ImportedState where
  management_endpoint : GoStr
  key_id : GoStr
  key_version_id : GoStr
  id : GoStr
deriving DecidableEq

/-- The import branch of `readKmsKeyVersion` (entered when the local
state carries no `management_endpoint`): when the import string matches
the fixed shape, the three captures populate the fields and the stored
identifier becomes `getKeyVersionCompositeId` of the key tokens;
otherwise a format error is returned and no field is set (`none`). -/
def readKmsKeyVersionImportBranch (id : GoStr) : Option ImportedState :=
  match findImportTokens id with
  | some (e, k, v) =>
      some { management_endpoint := e, key_id := k, key_version_id := v,
             id := getKeyVersionCompositeId k v }
  | none => none

/-! ### Facts about escaping -/

theorem safe_byte_ne {c : Nat} (h : shouldEscape c = false) : c ≠ 47 ∧ c ≠ 10 ∧ c ≠ 37 := by
  refine ⟨?_, ?_, ?_⟩ <;> rintro rfl <;> exact absurd h (by decide)

theorem upperhexDigit_ge (n : Nat) : 48 ≤ upperhexDigit n := by
  unfold upperhexDigit; split <;> omega

theorem mem_pathEscape_ne {s : GoStr} {x : Nat} (hx : x ∈ pathEscape s) : x ≠ 47 ∧ x ≠ 10 := by
  induction s with
  | nil => simp [pathEscape] at hx
  | cons c rest ih =>
    rw [pathEscape] at hx
    rcases List.mem_append.mp hx with h | h
    · by_cases hc : shouldEscape c
      · rw [if_pos hc] at h
        simp only [List.mem_cons, List.not_mem_nil, or_false] at h
        rcases h with rfl | rfl | rfl
        · exact ⟨by omega, by omega⟩
        · have := upperhexDigit_ge (c / 16); exact ⟨by omega, by omega⟩
        · have := upperhexDigit_ge (c % 16); exact ⟨by omega, by omega⟩
      · rw [if_neg hc] at h
        simp only [List.mem_cons, List.not_mem_nil, or_false] at h
        subst h
        have hcf : shouldEscape x = false := by simpa using hc
        exact ⟨(safe_byte_ne hcf).1, (safe_byte_ne hcf).2.1⟩
    · exact ih h

theorem not_mem_pathEscape_47 (s : GoStr) : 47 ∉ pathEscape s :=
  fun h => (mem_pathEscape_ne h).1 rfl

theorem not_mem_pathEscape_10 (s : GoStr) : 10 ∉ pathEscape s :=
  fun h => (mem_pathEscape_ne h).2 rfl

theorem hex_digit_round : ∀ n < 16, ishex (upperhexDigit n) = true ∧ unhex (upperhexDigit n) = n := by
  decide

theorem pathUnescape_cons_safe {c : Nat} (hc : c ≠ 37) (rest : GoStr) :
    pathUnescape (c :: rest) = (pathUnescape rest).map fun t => c :: t := by
  cases rest with
  | nil => simp [pathUnescape, hc]
  | cons a rest' =>
    cases rest' with
    | nil => simp [pathUnescape, hc]
    | cons b rest2 => simp [pathUnescape, hc]

theorem pathUnescape_escape_seq {a b : Nat} (ha : ishex a = true) (hb : ishex b = true)
    (rest : GoStr) :
    pathUnescape (37 :: a :: b :: rest) =
      (pathUnescape rest).map fun t => (16 * unhex a + unhex b) :: t := by
  simp [pathUnescape, ha, hb]

theorem pathUnescape_pathEscape {s : GoStr} (h : ∀ c ∈ s, c < 256) :
    pathUnescape (pathEscape s) = some s := by
  induction s with
  | nil => rfl
  | cons c rest ih =>
    have hc256 : c < 256 := h c (List.mem_cons_self c rest)
    have hrest : ∀ x ∈ rest, x < 256 := fun x hx => h x (List.mem_cons_of_mem c hx)
    by_cases hc : shouldEscape c
    · have hd := hex_digit_round (c / 16) (by omega)
      have hm := hex_digit_round (c % 16) (by omega)
      rw [pathEscape, if_pos hc]
      simp only [List.cons_append, List.nil_append]
      rw [pathUnescape_escape_seq hd.1 hm.1, ih hrest]
      simp only [Option.map_some']
      rw [hd.2, hm.2]
      congr 2
      omega
    · have hcf : shouldEscape c = false := by simpa using hc
      obtain ⟨_, _, h37⟩ := safe_byte_ne hcf
      rw [pathEscape, if_neg hc]
      simp only [List.singleton_append]
      rw [pathUnescape_cons_safe h37, ih hrest]
      rfl

/-! ### Facts about `goSplit` -/

theorem goSplit_sep_cons (sep : Nat) (ys : GoStr) :
    goSplit sep (sep :: ys) = [] :: goSplit sep ys := by
  simp [goSplit]

theorem goSplit_ne_cons {sep c : Nat} (h : c ≠ sep) (ys : GoStr) :
    goSplit sep (c :: ys) =
      match goSplit sep ys with
      | [] => [[c]]
      | p :: ps => (c :: p) :: ps := by
  simp [goSplit, h]

theorem goSplit_append_sep {xs : GoStr} (sep : Nat) (ys : GoStr) (h : sep ∉ xs) :
    goSplit sep (xs ++ sep :: ys) = xs :: goSplit sep ys := by
  induction xs with
  | nil => simpa using goSplit_sep_cons sep ys
  | cons c xs' ih =>
    have hc : c ≠ sep := fun hh => h (hh ▸ List.mem_cons_self c xs')
    have h' : sep ∉ xs' := fun hm => h (List.mem_cons_of_mem _ hm)
    rw [List.cons_append, goSplit_ne_cons hc, ih h']

theorem goSplit_no_sep {xs : GoStr} (sep : Nat) (h : sep ∉ xs) : goSplit sep xs = [xs] := by
  induction xs with
  | nil => rfl
  | cons c xs' ih =>
    have hc : c ≠ sep := fun hh => h (hh ▸ List.mem_cons_self c xs')
    have h' : sep ∉ xs' := fun hm => h (List.mem_cons_of_mem _ hm)
    rw [goSplit_ne_cons hc, ih h']

theorem goSplit_four {p0 p1 p2 p3 : GoStr} (h0 : 47 ∉ p0) (h1 : 47 ∉ p1) (h2 : 47 ∉ p2)
    (h3 : 47 ∉ p3) :
    goSplit 47 (p0 ++ 47 :: (p1 ++ 47 :: (p2 ++ 47 :: p3))) = [p0, p1, p2, p3] := by
  rw [goSplit_append_sep 47 _ h0, goSplit_append_sep 47 _ h1, goSplit_append_sep 47 _ h2,
    goSplit_no_sep 47 h3]

/-! ### The composite identifier in split form -/

theorem composite_eq (a b : GoStr) :
    getKeyVersionCompositeId a b =
      bytes (r"keys") ++ 47 :: (pathEscape a ++ 47 :: (bytes (r"keyVersions") ++ 47 :: pathEscape b)) := by
  have h1 : keysSlashLit = bytes (r"keys") ++ [47] := by decide
  have h2 : kvSlashLit = 47 :: (bytes (r"keyVersions") ++ [47]) := by decide
  rw [getKeyVersionCompositeId, h1, h2]
  simp [List.append_assoc]

theorem goSplit_composite (a b : GoStr) :
    goSplit 47 (getKeyVersionCompositeId a b) =
      [bytes (r"keys"), pathEscape a, bytes (r"keyVersions"), pathEscape b] := by
  rw [composite_eq]
  exact goSplit_four (by decide) (not_mem_pathEscape_47 a) (by decide) (not_mem_pathEscape_47 b)

/-! ### Facts about the `keys/.*/keyVersions/.*` matcher -/

theorem matchMid_of_isPrefixOf {s : GoStr} (h : kvSlashLit.isPrefixOf s = true) :
    matchMid s = true := by
  cases s with
  | nil => exact absurd h (by decide)
  | cons c rest => rw [matchMid, h]; rfl

theorem matchMid_append (xs ys : GoStr) (h : 10 ∉ xs) :
    matchMid (xs ++ (kvSlashLit ++ ys)) = true := by
  induction xs with
  | nil =>
    simp only [List.nil_append]
    exact matchMid_of_isPrefixOf (List.isPrefixOf_iff_prefix.mpr (List.prefix_append _ _))
  | cons x xs' ih =>
    have hx : x ≠ 10 := fun hh => h (hh ▸ List.mem_cons_self x xs')
    have h' : 10 ∉ xs' := fun hm => h (List.mem_cons_of_mem _ hm)
    rw [List.cons_append, matchMid, ih h']
    simp [hx]

theorem reMatchKeys_of_matchAt {s : GoStr} (h : matchAt s = true) : reMatchKeys s = true := by
  cases s with
  | nil => exact absurd h (by decide)
  | cons c rest => rw [reMatchKeys, h]; rfl

theorem matchAt_composite (a b : GoStr) : matchAt (getKeyVersionCompositeId a b) = true := by
  have hshape : getKeyVersionCompositeId a b =
      keysSlashLit ++ (pathEscape a ++ (kvSlashLit ++ pathEscape b)) := by
    simp [getKeyVersionCompositeId, List.append_assoc]
  rw [matchAt, hshape]
  have h1 : keysSlashLit.isPrefixOf
      (keysSlashLit ++ (pathEscape a ++ (kvSlashLit ++ pathEscape b))) = true :=
    List.isPrefixOf_iff_prefix.mpr (List.prefix_append _ _)
  rw [h1, List.drop_left' (by decide : keysSlashLit.length = 5),
    matchMid_append _ _ (not_mem_pathEscape_10 a)]
  rfl

theorem reMatchKeys_composite (a b : GoStr) :
    reMatchKeys (getKeyVersionCompositeId a b) = true :=
  reMatchKeys_of_matchAt (matchAt_composite a b)

/-! ### Claim C1: codec round trip -/

/-- C1: for every pair of byte strings `a`, `b`, decoding the encoded
composite identifier succeeds and returns the original pair:
`parseKeyVersionCompositeId (getKeyVersionCompositeId a b) = some (a, b)`,
including when `a` or `b` contain reserved bytes such as `/`, which
appear only percent-escaped inside the composite string. -/
theorem composite_roundtrip (a b : GoStr) (ha : ∀ c ∈ a, c < 256) (hb : ∀ c ∈ b, c < 256) :
    parseKeyVersionCompositeId (getKeyVersionCompositeId a b) = some (a, b) := by
  unfold parseKeyVersionCompositeId
  rw [goSplit_composite]
  simp only [reMatchKeys_composite, if_true, pathUnescape_pathEscape ha,
    pathUnescape_pathEscape hb, Option.getD_some]

/-- Witness for C1 at the concrete pair `("a/b", "v")`, whose first
component contains the reserved byte `/`. -/
theorem composite_roundtrip_witness :
    parseKeyVersionCompositeId (getKeyVersionCompositeId (bytes (r"a/b")) (bytes (r"v"))) =
      some (bytes (r"a/b"), bytes (r"v")) :=
  composite_roundtrip (bytes (r"a/b")) (bytes (r"v")) (by decide) (by decide)

/-! ### Claim C2: the decode grammar -/

/-- C2 counterexample: the regular-expression check in
`parseKeyVersionCompositeId` is unanchored, so decoding succeeds on
`xkeys/a/keyVersions/b` although its first `/`-delimited part is
`xkeys`, not the literal label `keys` — refuting the claimed
characterisation of the accepted grammar. -/
theorem parse_accepts_shifted_labels :
    parseKeyVersionCompositeId (bytes (r"xkeys/a/keyVersions/b")) =
      some (bytes (r"a"), bytes (r"b"))
    ∧ (goSplit 47 (bytes (r"xkeys/a/keyVersions/b"))).head? = some (bytes (r"xkeys"))
    ∧ bytes (r"xkeys") ≠ bytes (r"keys") :=
  ⟨by decide, by decide, by decide⟩

/-- C2 amended: `parseKeyVersionCompositeId` succeeds on a string if and
only if the string has exactly four `/`-delimited parts and contains a
substring matching `keys/.*/keyVersions/.*` (the regular expression is
unanchored, so the first and third parts need not equal the literal
labels); on every other string it fails, in particular on
`keys/x/keyVersions`, `foo/x/bar/y` and the empty string. -/
theorem parse_success_iff :
    (∀ s : GoStr, (parseKeyVersionCompositeId s).isSome = true ↔
        ((goSplit 47 s).length = 4 ∧ reMatchKeys s = true))
    ∧ parseKeyVersionCompositeId (bytes (r"keys/x/keyVersions")) = none
    ∧ parseKeyVersionCompositeId (bytes (r"foo/x/bar/y")) = none
    ∧ parseKeyVersionCompositeId ([] : GoStr) = none := by
  refine ⟨fun s => ?_, by decide, by decide, by decide⟩
  unfold parseKeyVersionCompositeId
  rcases hg : goSplit 47 s with _ | ⟨p0, _ | ⟨p1, _ | ⟨p2, _ | ⟨p3, _ | ⟨p4, rest⟩⟩⟩⟩⟩ <;>
    simp [hg]

/-! ### Claim C10: decode discards unescape failures -/

/-- C10: on any composite string with exactly four `/`-delimited parts
that passes the regular-expression check, `parseKeyVersionCompositeId`
succeeds even when percent-unescaping of the key segment fails, yielding
the empty string for that segment instead of an error (the
`url.PathUnescape` error is discarded). -/
theorem parse_swallows_unescape_failure (s p0 p1 p2 p3 : GoStr)
    (hs : goSplit 47 s = [p0, p1, p2, p3]) (hm : reMatchKeys s = true)
    (hu : pathUnescape p1 = none) :
    parseKeyVersionCompositeId s = some ([], (pathUnescape p3).getD []) := by
  unfold parseKeyVersionCompositeId
  rw [hs]
  simp [hm, hu]

/-- Witness for C10 at `keys/%zz/keyVersions/v`: the key segment `%zz`
fails to unescape, yet decoding returns `some ("", "v")`. -/
theorem parse_swallows_unescape_failure_witness :
    parseKeyVersionCompositeId (bytes (r"keys/%zz/keyVersions/v")) =
      some ([], bytes (r"v")) :=
  parse_swallows_unescape_failure (bytes (r"keys/%zz/keyVersions/v")) (bytes (r"keys"))
    (bytes (r"%zz")) (bytes (r"keyVersions")) (bytes (r"v")) (by decide) (by decide) (by decide)

/-! ### Facts about the import matcher -/

theorem lastSplitOn_sound {pat : GoStr} :
    ∀ {t A C : GoStr}, lastSplitOn pat t = some (A, C) → t = A ++ (pat ++ C) := by
  intro t
  induction t with
  | nil => intro A C h; exact absurd h (by simp [lastSplitOn])
  | cons c rest ih =>
    intro A C h
    rw [lastSplitOn] at h
    split at h
    next A' C' hrec =>
      simp only [Option.some.injEq, Prod.mk.injEq] at h
      obtain ⟨rfl, rfl⟩ := h
      rw [ih hrec]
      simp
    next hrec =>
      split at h
      next hp =>
        simp only [Option.some.injEq, Prod.mk.injEq] at h
        obtain ⟨rfl, rfl⟩ := h
        obtain ⟨u, hu⟩ := List.isPrefixOf_iff_prefix.mp hp
        have hdrop : (c :: rest).drop pat.length = u := by
          rw [← hu]; exact List.drop_left' rfl
        rw [hdrop, ← hu]
        simp
      next => exact absurd h (by simp)

theorem lastSplitOn_kv_complete (B C : GoStr) :
    (lastSplitOn kvSlashLit (B ++ (kvSlashLit ++ C))).isSome = true := by
  induction B with
  | nil =>
    simp only [List.nil_append]
    have hkv2 : kvSlashLit ++ C =
        47 :: (([107, 101, 121, 86, 101, 114, 115, 105, 111, 110, 115, 47] : GoStr) ++ C) := by
      have h0 : kvSlashLit =
          47 :: ([107, 101, 121, 86, 101, 114, 115, 105, 111, 110, 115, 47] : GoStr) := by decide
      rw [h0, List.cons_append]
    rw [hkv2, lastSplitOn]
    split
    next A2 C2 hrec => simp
    next hrec =>
      have hp : kvSlashLit.isPrefixOf
          (47 :: (([107, 101, 121, 86, 101, 114, 115, 105, 111, 110, 115, 47] : GoStr) ++ C)) = true := by
        rw [← hkv2]
        exact List.isPrefixOf_iff_prefix.mpr (List.prefix_append _ _)
      rw [if_pos hp]
      simp
  | cons b B' ih =>
    simp only [List.cons_append]
    rw [lastSplitOn]
    split
    next A2 C2 hrec => simp
    next hrec =>
      rw [hrec] at ih
      simp at ih

theorem matchImportTail_sound :
    ∀ {t A B C : GoStr}, matchImportTail t = some (A, B, C) →
      t = A ++ (slashKeysSlashLit ++ (B ++ (kvSlashLit ++ C))) := by
  intro t
  induction t with
  | nil => intro A B C h; exact absurd h (by simp [matchImportTail])
  | cons c rest ih =>
    intro A B C h
    rw [matchImportTail] at h
    split at h
    next A' B' C' hrec =>
      simp only [Option.some.injEq, Prod.mk.injEq] at h
      obtain ⟨rfl, rfl, rfl⟩ := h
      rw [List.cons_append, ih hrec]
    next hrec =>
      split at h
      next hp =>
        split at h
        next B2 C2 hls =>
          simp only [Option.some.injEq, Prod.mk.injEq] at h
          obtain ⟨rfl, rfl, rfl⟩ := h
          obtain ⟨u, hu⟩ := List.isPrefixOf_iff_prefix.mp hp
          have hdrop : (c :: rest).drop 6 = u := by
            rw [← hu]; exact List.drop_left' (by decide)
          rw [hdrop] at hls
          have hdecomp := lastSplitOn_sound hls
          rw [← hu, hdecomp]
          simp
        next hls => exact absurd h (by simp)
      next => exact absurd h (by simp)

theorem matchImportTail_complete (A B C : GoStr) :
    (matchImportTail (A ++ (slashKeysSlashLit ++ (B ++ (kvSlashLit ++ C))))).isSome = true := by
  induction A with
  | nil =>
    simp only [List.nil_append]
    have hsk2 : slashKeysSlashLit ++ (B ++ (kvSlashLit ++ C)) =
        47 :: (([107, 101, 121, 115, 47] : GoStr) ++ (B ++ (kvSlashLit ++ C))) := by
      have h0 : slashKeysSlashLit = 47 :: ([107, 101, 121, 115, 47] : GoStr) := by decide
      rw [h0, List.cons_append]
    rw [hsk2, matchImportTail]
    split
    next A' B' C' hrec => simp
    next hrec =>
      have hp : slashKeysSlashLit.isPrefixOf
          (47 :: (([107, 101, 121, 115, 47] : GoStr) ++ (B ++ (kvSlashLit ++ C)))) = true := by
        rw [← hsk2]
        exact List.isPrefixOf_iff_prefix.mpr (List.prefix_append _ _)
      have hdrop : (47 :: (([107, 101, 121, 115, 47] : GoStr) ++ (B ++ (kvSlashLit ++ C)))).drop 6 =
          B ++ (kvSlashLit ++ C) := by
        rw [show (47 : Nat) :: (([107, 101, 121, 115, 47] : GoStr) ++ (B ++ (kvSlashLit ++ C))) =
            ([47, 107, 101, 121, 115, 47] : GoStr) ++ (B ++ (kvSlashLit ++ C)) from rfl]
        exact List.drop_left' (by decide)
      rw [if_pos hp, hdrop]
      split
      next B2 C2 hls => simp
      next hls =>
        have hcomp := lastSplitOn_kv_complete B C
        rw [hls] at hcomp
        simp at hcomp
  | cons a A' ih =>
    simp only [List.cons_append]
    rw [matchImportTail]
    split
    next A2 B2 C2 hrec => simp
    next hrec =>
      rw [hrec] at ih
      simp at ih

theorem goSplit_import_shape {A B C : GoStr} (hA : 47 ∉ A) (hB : 47 ∉ B) (hC : 47 ∉ C) :
    goSplit 47 (A ++ (slashKeysSlashLit ++ (B ++ (kvSlashLit ++ C)))) =
      [A, bytes (r"keys"), B, bytes (r"keyVersions"), C] := by
  have h1 : slashKeysSlashLit = 47 :: (bytes (r"keys") ++ [47]) := by decide
  have h2 : kvSlashLit = 47 :: (bytes (r"keyVersions") ++ [47]) := by decide
  rw [h1, h2]
  simp only [List.cons_append, List.append_assoc, List.singleton_append, List.nil_append]
  rw [goSplit_append_sep 47 _ hA, goSplit_append_sep 47 _ (by decide),
    goSplit_append_sep 47 _ hB, goSplit_append_sep 47 _ (by decide), goSplit_no_sep 47 hC]

theorem import_parts_unique {A B C e k v : GoStr} (he : 47 ∉ e) (hk : 47 ∉ k) (hv : 47 ∉ v)
    (heq : A ++ (slashKeysSlashLit ++ (B ++ (kvSlashLit ++ C))) =
      e ++ (slashKeysSlashLit ++ (k ++ (kvSlashLit ++ v)))) :
    A = e ∧ B = k ∧ C = v := by
  have hcount := congrArg (List.count 47) heq
  simp only [List.count_append] at hcount
  have hsk : List.count 47 slashKeysSlashLit = 2 := by decide
  have hkv : List.count 47 kvSlashLit = 2 := by decide
  simp only [hsk, hkv, List.count_eq_zero.mpr he, List.count_eq_zero.mpr hk,
    List.count_eq_zero.mpr hv] at hcount
  have hA : 47 ∉ A := List.count_eq_zero.mp (by omega)
  have hB : 47 ∉ B := List.count_eq_zero.mp (by omega)
  have hC : 47 ∉ C := List.count_eq_zero.mp (by omega)
  have hs1 := goSplit_import_shape hA hB hC
  have hs2 := goSplit_import_shape he hk hv
  rw [heq, hs2] at hs1
  injection hs1 with g1 hs1
  injection hs1 with _ hs1
  injection hs1 with g3 hs1
  injection hs1 with _ hs1
  injection hs1 with g5 _
  exact ⟨g1.symm, g3.symm, g5.symm⟩

theorem import_shape_no_newline {e k v : GoStr} (he : 10 ∉ e) (hk : 10 ∉ k) (hv : 10 ∉ v) :
    ¬ (10 ∈ mgmtSlashLit ++ (e ++ (slashKeysSlashLit ++ (k ++ (kvSlashLit ++ v))))) := by
  intro hmem
  simp only [List.mem_append] at hmem
  rcases hmem with h | h | h | h | h | h
  exacts [absurd h (by decide), he h, absurd h (by decide), hk h,
    absurd h (by decide), hv h]

theorem findImportTokens_sound {s e k v : GoStr} (h : findImportTokens s = some (e, k, v)) :
    10 ∉ e ∧ 10 ∉ k ∧ 10 ∉ v ∧
      s = mgmtSlashLit ++ (e ++ (slashKeysSlashLit ++ (k ++ (kvSlashLit ++ v)))) := by
  unfold findImportTokens at h
  split at h
  next => exact absurd h (by simp)
  next h10 =>
    split at h
    next hpre =>
      obtain ⟨u, hu⟩ := List.isPrefixOf_iff_prefix.mp hpre
      have hdrop : s.drop 19 = u := by
        rw [← hu]; exact List.drop_left' (by decide)
      rw [hdrop] at h
      have hmid := matchImportTail_sound h
      have hfull : s = mgmtSlashLit ++ (e ++ (slashKeysSlashLit ++ (k ++ (kvSlashLit ++ v)))) := by
        rw [← hu, hmid]
      refine ⟨fun hmem => h10 ?_, fun hmem => h10 ?_, fun hmem => h10 ?_, hfull⟩ <;>
        rw [hfull] <;> simp [List.mem_append, hmem]
    next => exact absurd h (by simp)

/-! ### Claim C5: import parsing -/

/-- C5: every import string of the shape
`managementEndpoint/{e}/keys/{k}/keyVersions/{v}` (segments newline-free,
as the grammar's `.` demands) is accepted: the three fields are
populated with the regular expression's greedy captures — which
decompose the string in the same shape, and are exactly `(e, k, v)`
whenever the given segments are slash-free — and the stored identifier
becomes `getKeyVersionCompositeId` of the captured key tokens.  Every
string admitting no such decomposition (for instance `garbage`) returns
a format error with no field set. -/
theorem import_branch_spec :
    (∀ s e k v : GoStr, 10 ∉ e → 10 ∉ k → 10 ∉ v →
      s = mgmtSlashLit ++ (e ++ (slashKeysSlashLit ++ (k ++ (kvSlashLit ++ v)))) →
      ∃ e2 k2 v2,
        readKmsKeyVersionImportBranch s =
          some { management_endpoint := e2, key_id := k2, key_version_id := v2,
                 id := getKeyVersionCompositeId k2 v2 }
        ∧ s = mgmtSlashLit ++ (e2 ++ (slashKeysSlashLit ++ (k2 ++ (kvSlashLit ++ v2))))
        ∧ (47 ∉ e → 47 ∉ k → 47 ∉ v → e2 = e ∧ k2 = k ∧ v2 = v))
    ∧ (∀ s : GoStr,
        (¬ ∃ e k v : GoStr, 10 ∉ e ∧ 10 ∉ k ∧ 10 ∉ v ∧
          s = mgmtSlashLit ++ (e ++ (slashKeysSlashLit ++ (k ++ (kvSlashLit ++ v))))) →
        readKmsKeyVersionImportBranch s = none)
    ∧ readKmsKeyVersionImportBranch (bytes (r"garbage")) = none := by
  refine ⟨?_, ?_, by decide⟩
  · intro s e k v he hk hv hs
    subst hs
    have h10 := import_shape_no_newline he hk hv
    have hpre : mgmtSlashLit.isPrefixOf
        (mgmtSlashLit ++ (e ++ (slashKeysSlashLit ++ (k ++ (kvSlashLit ++ v))))) = true :=
      List.isPrefixOf_iff_prefix.mpr (List.prefix_append _ _)
    have hfind : findImportTokens
        (mgmtSlashLit ++ (e ++ (slashKeysSlashLit ++ (k ++ (kvSlashLit ++ v))))) =
        matchImportTail (e ++ (slashKeysSlashLit ++ (k ++ (kvSlashLit ++ v)))) := by
      unfold findImportTokens
      rw [if_neg h10, if_pos hpre, List.drop_left' (by decide : mgmtSlashLit.length = 19)]
    have hsome := matchImportTail_complete e k v
    rcases hm : matchImportTail (e ++ (slashKeysSlashLit ++ (k ++ (kvSlashLit ++ v)))) with
      _ | ⟨e2, k2, v2⟩
    · rw [hm] at hsome
      simp at hsome
    · have hs2 := matchImportTail_sound hm
      refine ⟨e2, k2, v2, ?_, ?_, ?_⟩
      · simp [readKmsKeyVersionImportBranch, hfind, hm]
      · rw [hs2]
      · intro he47 hk47 hv47
        exact import_parts_unique he47 hk47 hv47 hs2.symm
  · intro s hne
    rcases hf : findImportTokens s with _ | ⟨e, k, v⟩
    · simp [readKmsKeyVersionImportBranch, hf]
    · obtain ⟨he, hk, hv, hs⟩ := findImportTokens_sound hf
      exact absurd ⟨e, k, v, he, hk, hv, hs⟩ hne

/-- Witness for C5 at `managementEndpoint/ep1/keys/k1/keyVersions/v1`,
whose segments are slash-free, so the captures are exactly
`(ep1, k1, v1)`. -/
theorem import_branch_spec_witness :
    readKmsKeyVersionImportBranch (bytes (r"managementEndpoint/ep1/keys/k1/keyVersions/v1")) =
      some { management_endpoint := bytes (r"ep1"), key_id := bytes (r"k1"),
             key_version_id := bytes (r"v1"),
             id := getKeyVersionCompositeId (bytes (r"k1")) (bytes (r"v1")) } := by
  obtain ⟨e2, k2, v2, hres, hshape, huniq⟩ :=
    import_branch_spec.1 (bytes (r"managementEndpoint/ep1/keys/k1/keyVersions/v1"))
      (bytes (r"ep1")) (bytes (r"k1")) (bytes (r"v1"))
      (by decide) (by decide) (by decide) (by decide)
  obtain ⟨rfl, rfl, rfl⟩ := huniq (by decide) (by decide) (by decide)
  exact hres

/-! ### The remote snapshot and the local declarative state -/

/-- Modelled from the spec: the vendored SDK's
`KeyVersionLifecycleStateEnum` (its declaration is not part of the
sources here); the spec lists its values as opaque tags `Creating,
Enabling, Enabled, Disabled, Deleting, SchedulingDeletion,
PendingDeletion, Deleted`. -/
inductive KeyVersionLifecycleStateEnum where
  | Creating
  | Enabling
  | Enabled
  | Disabled
  | Deleting
  | SchedulingDeletion
  | PendingDeletion
  | Deleted
deriving DecidableEq

/-- The remote snapshot `oci_kms.KeyVersion` as the handler uses it:
pointer-valued fields are `Option`s; `LifecycleState` is value-typed and
always present.  The two `SDKTime` fields are represented by the byte
string their `String()` rendering produces, which is all `SetData`
consumes. -/
structure KeyVersion where
  compartmentId : Option GoStr
  id : Option GoStr
  keyId : Option GoStr
  lifecycleState : KeyVersionLifecycleStateEnum
  timeCreated : Option GoStr
  timeOfDeletion : Option GoStr
  vaultId : Option GoStr
deriving DecidableEq

/-- The local declared-state fields of the resource, each `none` when
never set. -/
structure LocalState where
  key_id : Option GoStr
  key_version_id : Option GoStr
  compartment_id : Option GoStr
  state : Option KeyVersionLifecycleStateEnum
  time_created : Option GoStr
  time_of_deletion : Option GoStr
  vault_id : Option GoStr
  management_endpoint : Option GoStr
deriving DecidableEq

/-! ### The lifecycle pending/target tables -/

/-- `CreatedPending` from the source. -/
def CreatedPending : List KeyVersionLifecycleStateEnum := [.Creating, .Enabling]

/-- `CreatedTarget` from the source. -/
def CreatedTarget : List KeyVersionLifecycleStateEnum := [.Enabled]

/-- `DeletedPending` from the source. -/
def DeletedPending : List KeyVersionLifecycleStateEnum :=
  [.Disabled, .Deleting, .SchedulingDeletion]

/-- `DeletedTarget` from the source. -/
def DeletedTarget : List KeyVersionLifecycleStateEnum := [.Deleted, .PendingDeletion]

/-! ### `ID`: identity from the snapshot -/

/-- `ID()` from the source: it dereferences `s.Res.KeyId` and `s.Res.Id`
(modelled as requiring both to be present) and never consults the local
declared fields, which is why the model ignores its `LocalState`
argument. -/
def crudID (_d : LocalState) (res : KeyVersion) : Option GoStr :=
  match res.keyId, res.id with
  | some k, some i => some (getKeyVersionCompositeId k i)
  | _, _ => none

/-! ### `Get` and `Delete`: decode gates and remote calls -/

/-- Errors `Get` can return. -/
inductive GetErr where
  | malformedId (id : GoStr)
  | remote (e : GoStr)
deriving DecidableEq

/-- `Get()` from the source: decode the stored identifier; on failure
return the decode error having made no remote call; on success issue
`GetKeyVersion` by the decoded pair and store the response as the new
snapshot `Res`.  The second component records the remote fetches made,
as `(keyId, keyVersionId)` pairs. -/
def crudGet (remote : GoStr → GoStr → Except GoStr KeyVersion) (id : GoStr) :
    Except GetErr KeyVersion × List (GoStr × GoStr) :=
  match parseKeyVersionCompositeId id with
  | none => (.error (.malformedId id), [])
  | some (k, v) =>
    match remote k v with
    | .error e => (.error (.remote e), [(k, v)])
    | .ok resp => (.ok resp, [(k, v)])

/-- Errors `Delete` can return. -/
inductive DeleteErr where
  | malformedId (id : GoStr)
  | invalidTimestamp (ts : GoStr)
  | remote (e : GoStr)
deriving DecidableEq

/-- `Delete()` from the source (the method on the synchronizer): decode
the stored identifier (failure returns the decode error with no remote
call); when `time_of_deletion` is set, parse it — `time.Parse` with the
`RFC3339Nano` layout is kept opaque as the parameter
`timeParseRFC3339Nano` — and return the parse error before any remote
call when it fails; finally issue `ScheduleKeyVersionDeletion` with the
optional parsed timestamp attached.  The second component records the
schedule-deletion calls made, as `(keyId, keyVersionId, timestamp)`
triples. -/
def crudDelete {τ : Type} (timeParseRFC3339Nano : GoStr → Option τ)
    (remote : GoStr → GoStr → Option τ → Except GoStr Unit)
    (id : GoStr) (timeOfDeletion : Option GoStr) :
    Except DeleteErr Unit × List (GoStr × GoStr × Option τ) :=
  match parseKeyVersionCompositeId id with
  | none => (.error (.malformedId id), [])
  | some (k, v) =>
    match timeOfDeletion with
    | some ts =>
      match timeParseRFC3339Nano ts with
      | none => (.error (.invalidTimestamp ts), [])
      | some t =>
        match remote k v (some t) with
        | .error e => (.error (.remote e), [(k, v, some t)])
        | .ok _ => (.ok (), [(k, v, some t)])
    | none =>
      match remote k v none with
      | .error e => (.error (.remote e), [(k, v, none)])
      | .ok _ => (.ok (), [(k, v, none)])

/-! ### The deletion guard (`deleteKmsKeyVersion`) -/

/-- Model of Go `strconv.ParseBool`: the twelve accepted literals;
anything else is an error (`none`). -/
def parseBool (s : String) : Option Bool :=
  if s = (r"1") ∨ s = (r"t") ∨ s = (r"T") ∨ s = (r"true") ∨ s = (r"TRUE") ∨ s = (r"True") then
    some true
  else if s = (r"0") ∨ s = (r"f") ∨ s = (r"F") ∨ s = (r"false") ∨ s = (r"FALSE") ∨ s = (r"False") then
    some false
  else none

/-- Modelled from the spec: `getEnvSettingWithDefault` (declared
elsewhere in the repository) reads a named environment setting and
returns the given default when it is unset. -/
def getEnvSettingWithDefault (env : String → Option String) (name dflt : String) : String :=
  (env name).getD dflt

/-- How far `deleteKmsKeyVersion` gets before handing off. -/
inductive DeleteDispatch where
  | noOp
  | endpointMissing
  | clientError (e : String)
  | dispatched (endpoint : String)
deriving DecidableEq

/-- `deleteKmsKeyVersion` from the source: read the
`disable_kms_version_delete` toggle (`strconv.ParseBool` with its error
discarded, so an unparsable value acts as `false`); when it is engaged
return `nil` at once, before the endpoint is read or any client is
built; otherwise require the endpoint, build the client and hand the
resource to the generic deletion driver (`dispatched`). -/
def deleteKmsKeyVersion (env : String → Option String)
    (client : String → Except String Unit) (endpoint : Option String) : DeleteDispatch :=
  if (parseBool (getEnvSettingWithDefault env (r"disable_kms_version_delete") (r"false"))).getD
      false then
    .noOp
  else
    match endpoint with
    | none => .endpointMissing
    | some ep =>
      match client ep with
      | .error e => .clientError e
      | .ok _ => .dispatched ep

/-! ### `SetData`: projecting the snapshot into the local state -/

/-- `SetData()` from the source: first re-derive `key_id` and
`key_version_id` from the stored identifier when it decodes (on failure
only a diagnostic is logged and both are left as they were); then each
non-nil snapshot field overwrites the corresponding local field, the
value-typed `LifecycleState` unconditionally; nil snapshot fields leave
the local fields untouched.  The Go function always returns `nil`, so
the model is total. -/
def setData (res : KeyVersion) (id : GoStr) (d : LocalState) : LocalState :=
  let d1 := match parseKeyVersionCompositeId id with
    | some (k, v) => { d with key_id := some k, key_version_id := some v }
    | none => d
  let d2 := match res.compartmentId with
    | some c => { d1 with compartment_id := some c }
    | none => d1
  let d3 := match res.keyId with
    | some k => { d2 with key_id := some k }
    | none => d2
  let d4 := { d3 with state := some res.lifecycleState }
  let d5 := match res.timeCreated with
    | some t => { d4 with time_created := some t }
    | none => d4
  let d6 := match res.timeOfDeletion with
    | some t => { d5 with time_of_deletion := some t }
    | none => d5
  match res.vaultId with
  | some vi => { d6 with vault_id := some vi }
  | none => d6

/-! ### Claim C9: the pending/target tables -/

/-- C9: `CreatedPending` is exactly `{Creating, Enabling}`,
`CreatedTarget` exactly `{Enabled}`, `DeletedPending` exactly
`{Disabled, Deleting, SchedulingDeletion}` and `DeletedTarget` exactly
`{Deleted, PendingDeletion}`. -/
theorem lifecycle_tables :
    (∀ st, st ∈ CreatedPending ↔ (st = .Creating ∨ st = .Enabling))
    ∧ (∀ st, st ∈ CreatedTarget ↔ st = .Enabled)
    ∧ (∀ st, st ∈ DeletedPending ↔ (st = .Disabled ∨ st = .Deleting ∨ st = .SchedulingDeletion))
    ∧ (∀ st, st ∈ DeletedTarget ↔ (st = .Deleted ∨ st = .PendingDeletion)) := by
  refine ⟨?_, ?_, ?_, ?_⟩ <;> intro st <;> cases st <;>
    simp [CreatedPending, CreatedTarget, DeletedPending, DeletedTarget]

/-! ### Claim C8: identity from the snapshot -/

/-- C8: when a successful Create or Get has set the snapshot (both
`Res.KeyId` and `Res.Id` present), `ID()` returns exactly
`getKeyVersionCompositeId (Res.KeyId) (Res.Id)`, for every value of the
locally declared fields `d`. -/
theorem crudID_spec (res : KeyVersion) (k i : GoStr) (h1 : res.keyId = some k)
    (h2 : res.id = some i) (d : LocalState) :
    crudID d res = some (getKeyVersionCompositeId k i) := by
  simp [crudID, h1, h2]

/-- Witness for C8 at a concrete snapshot carrying `keyId = k1` and
`id = v1`. -/
theorem crudID_spec_witness :
    crudID ⟨none, none, none, none, none, none, none, none⟩
        ⟨none, some (bytes (r"v1")), some (bytes (r"k1")), .Enabled, none, none, none⟩ =
      some (getKeyVersionCompositeId (bytes (r"k1")) (bytes (r"v1"))) :=
  crudID_spec _ (bytes (r"k1")) (bytes (r"v1")) rfl rfl _

/-! ### Claim C4: the decode gate on the remote operations -/

/-- C4: when the stored identifier fails to decode, both `Get` and
`Delete` return the decode error with an empty remote-call trace; when
it decodes to `(k, v)`, `Get` issues exactly one fetch by that pair and,
on remote success, stores the response as the snapshot. -/
theorem decode_gates_remote_ops {τ : Type} (remoteG : GoStr → GoStr → Except GoStr KeyVersion)
    (tparse : GoStr → Option τ) (remoteD : GoStr → GoStr → Option τ → Except GoStr Unit)
    (id : GoStr) (tod : Option GoStr) :
    (parseKeyVersionCompositeId id = none →
      crudGet remoteG id = (.error (.malformedId id), [])
      ∧ crudDelete tparse remoteD id tod = (.error (.malformedId id), []))
    ∧ (∀ k v, parseKeyVersionCompositeId id = some (k, v) →
        (crudGet remoteG id).2 = [(k, v)]
        ∧ ∀ resp, remoteG k v = .ok resp → (crudGet remoteG id).1 = .ok resp) := by
  constructor
  · intro hp
    exact ⟨by simp [crudGet, hp], by simp [crudDelete, hp]⟩
  · intro k v hp
    constructor
    · simp only [crudGet, hp]
      rcases hr : remoteG k v with e | resp <;> simp
    · intro resp hresp
      simp [crudGet, hp, hresp]

/-- Witness for C4: the undecodable identifier `nope` yields the decode
error and no call; the decodable `keys/k1/keyVersions/v1` yields exactly
one fetch by `(k1, v1)`. -/
theorem decode_gates_remote_ops_witness :
    crudGet (fun _ _ => .ok ⟨none, none, none, .Enabled, none, none, none⟩) (bytes (r"nope")) =
      (.error (.malformedId (bytes (r"nope"))), [])
    ∧ (crudGet (fun _ _ => .ok ⟨none, none, none, .Enabled, none, none, none⟩)
        (bytes (r"keys/k1/keyVersions/v1"))).2 = [(bytes (r"k1"), bytes (r"v1"))] := by
  constructor
  · exact ((decode_gates_remote_ops _ (fun _ => (none : Option Unit)) (fun _ _ _ => .ok ()) _
      none).1 (by decide)).1
  · exact ((decode_gates_remote_ops _ (fun _ => (none : Option Unit)) (fun _ _ _ => .ok ()) _
      none).2 (bytes (r"k1")) (bytes (r"v1")) (by decide)).1

/-! ### Claim C7: the deletion timestamp -/

/-- C7: with the identifier decodable, a set `time_of_deletion` is fed
to the RFC 3339-with-fractional-seconds parser; a parse failure is
returned before any schedule-deletion call is made, and a parse success
attaches the parsed timestamp to the single schedule-deletion call. -/
theorem delete_timestamp_spec {τ : Type} (tparse : GoStr → Option τ)
    (remote : GoStr → GoStr → Option τ → Except GoStr Unit) (id k v ts : GoStr)
    (hp : parseKeyVersionCompositeId id = some (k, v)) :
    (tparse ts = none →
      crudDelete tparse remote id (some ts) = (.error (.invalidTimestamp ts), []))
    ∧ (∀ t, tparse ts = some t →
        (crudDelete tparse remote id (some ts)).2 = [(k, v, some t)]) := by
  constructor
  · intro ht
    simp [crudDelete, hp, ht]
  · intro t ht
    simp only [crudDelete, hp, ht]
    rcases hr : remote k v (some t) with e | u <;> simp

/-- Witness for C7 with a stub parser failing on `bad` and mapping
everything else to `7`. -/
theorem delete_timestamp_spec_witness :
    crudDelete (fun s => if s = bytes (r"bad") then (none : Option Nat) else some 7)
        (fun _ _ _ => .ok ()) (bytes (r"keys/k1/keyVersions/v1")) (some (bytes (r"bad"))) =
      (.error (.invalidTimestamp (bytes (r"bad"))), [])
    ∧ (crudDelete (fun s => if s = bytes (r"bad") then (none : Option Nat) else some 7)
        (fun _ _ _ => .ok ()) (bytes (r"keys/k1/keyVersions/v1")) (some (bytes (r"ok")))).2 =
      [(bytes (r"k1"), bytes (r"v1"), some 7)] := by
  constructor
  · exact (delete_timestamp_spec _ _ _ (bytes (r"k1")) (bytes (r"v1")) _ (by decide)).1 (by decide)
  · exact (delete_timestamp_spec _ _ _ (bytes (r"k1")) (bytes (r"v1")) _ (by decide)).2 7
      (by decide)

/-! ### Claim C3: the deletion guard -/

/-- C3: when the `disable_kms_version_delete` toggle parses as `true`,
`deleteKmsKeyVersion` returns success immediately, for every endpoint
and client (so the remote service receives zero calls); when the toggle
is unset or unparsable, the guard stays disengaged and deletion proceeds
through the normal path. -/
theorem delete_guard_spec (env : String → Option String) (client : String → Except String Unit)
    (ep : String) :
    ((∃ s, env (r"disable_kms_version_delete") = some s ∧ parseBool s = some true) →
      ∀ e, deleteKmsKeyVersion env client e = .noOp)
    ∧ ((env (r"disable_kms_version_delete") = none
        ∨ ∃ s, env (r"disable_kms_version_delete") = some s ∧ parseBool s = none) →
      deleteKmsKeyVersion env client (some ep) =
        match client ep with
        | .error e => .clientError e
        | .ok _ => .dispatched ep) := by
  constructor
  · rintro ⟨s, hs, htrue⟩ e
    simp [deleteKmsKeyVersion, getEnvSettingWithDefault, hs, htrue]
  · rintro (hnone | ⟨s, hs, hbad⟩)
    · simp [deleteKmsKeyVersion, getEnvSettingWithDefault, hnone, parseBool]
    · simp [deleteKmsKeyVersion, getEnvSettingWithDefault, hs, hbad]

/-- Witness for C3: an environment answering `true` suppresses the
deletion; an empty environment lets it proceed to dispatch. -/
theorem delete_guard_spec_witness :
    deleteKmsKeyVersion (fun _ => some (r"true")) (fun _ => .ok ()) (some (r"ep")) = .noOp
    ∧ deleteKmsKeyVersion (fun _ => none) (fun _ => .ok ()) (some (r"ep")) =
      .dispatched (r"ep") := by
  constructor
  · exact (delete_guard_spec (fun _ => some (r"true")) (fun _ => .ok ()) (r"ep")).1
      ⟨(r"true"), rfl, by decide⟩ (some (r"ep"))
  · exact (delete_guard_spec (fun _ => none) (fun _ => .ok ()) (r"ep")).2 (Or.inl rfl)

/-! ### Claim C6: `SetData` partial projection -/

/-- C6: when the stored identifier fails to decode, `setData` leaves
`key_version_id` as it was (and `key_id` too unless the snapshot's
`KeyId` overwrites it) while still projecting everything else; every
non-nil snapshot field (`CompartmentId`, `KeyId`, `TimeCreated`,
`TimeOfDeletion`, `VaultId`, plus the always-present `LifecycleState`)
overwrites the corresponding local field, and nil snapshot fields leave
the local fields untouched (`management_endpoint` is never touched). -/
theorem setData_spec (res : KeyVersion) (id : GoStr) (d : LocalState) :
    (parseKeyVersionCompositeId id = none →
      (setData res id d).key_version_id = d.key_version_id
      ∧ (res.keyId = none → (setData res id d).key_id = d.key_id))
    ∧ (∀ k v, parseKeyVersionCompositeId id = some (k, v) →
        (setData res id d).key_version_id = some v)
    ∧ (∀ c, res.compartmentId = some c → (setData res id d).compartment_id = some c)
    ∧ (res.compartmentId = none → (setData res id d).compartment_id = d.compartment_id)
    ∧ (∀ k, res.keyId = some k → (setData res id d).key_id = some k)
    ∧ (setData res id d).state = some res.lifecycleState
    ∧ (∀ t, res.timeCreated = some t → (setData res id d).time_created = some t)
    ∧ (res.timeCreated = none → (setData res id d).time_created = d.time_created)
    ∧ (∀ t, res.timeOfDeletion = some t → (setData res id d).time_of_deletion = some t)
    ∧ (res.timeOfDeletion = none → (setData res id d).time_of_deletion = d.time_of_deletion)
    ∧ (∀ w, res.vaultId = some w → (setData res id d).vault_id = some w)
    ∧ (res.vaultId = none → (setData res id d).vault_id = d.vault_id)
    ∧ (setData res id d).management_endpoint = d.management_endpoint := by
  obtain ⟨cid, rid, kid, ls, tc, tod, vid⟩ := res
  rcases hp : parseKeyVersionCompositeId id with _ | ⟨k0, v0⟩ <;>
    rcases cid with _ | c0 <;> rcases kid with _ | k1 <;> rcases tc with _ | t0 <;>
    rcases tod with _ | t1 <;> rcases vid with _ | w0 <;>
    simp [setData, hp]

/-- Witness for C6 at an undecodable identifier: `key_version_id` and
`key_id` survive while `compartment_id` is still projected. -/
theorem setData_spec_witness :
    (setData ⟨some (bytes (r"c1")), none, none, .Enabled, none, none, none⟩ (bytes (r"bad"))
        ⟨some (bytes (r"K")), some (bytes (r"V")), none, none, none, none, none, none⟩).key_version_id =
      some (bytes (r"V"))
    ∧ (setData ⟨some (bytes (r"c1")), none, none, .Enabled, none, none, none⟩ (bytes (r"bad"))
        ⟨some (bytes (r"K")), some (bytes (r"V")), none, none, none, none, none, none⟩).key_id =
      some (bytes (r"K")) := by
  have h := (setData_spec ⟨some (bytes (r"c1")), none, none, .Enabled, none, none, none⟩
      (bytes (r"bad"))
      ⟨some (bytes (r"K")), some (bytes (r"V")), none, none, none, none, none, none⟩).1 (by decide)
  exact ⟨h.1, h.2 rfl⟩

end Oci
